import Mathlib

/-!
Verification of the DeviceTrust native signal collector
(src/android/src/main/cpp/device_trust_native.cpp).

Strings are modelled as lists of characters; the C++ functions that read
OS resources (/proc/self/maps, /proc/self/fd, dladdr) are modelled as
functions of the data those resources would yield, with `Option` capturing
the open/resolve failures the code checks for.
-/

namespace DeviceTrust

/-- ASCII lower-casing, as C `tolower` in the C locale: only A-Z change. -/
def toLowerChar (c : Char) : Char :=
  if 'A' ≤ c ∧ c ≤ 'Z' then Char.ofNat (c.toNat + 32) else c

/-- Test `beginsWith needle hay` : `needle` occurs at the start of `hay`
(C++ per-position comparison used by `string::find`). -/
def beginsWith : List Char → List Char → Bool
  | [], _ => true
  | _ :: _, [] => false
  | n :: ns, h :: hs => n = h && beginsWith ns hs

/-- Test `containsSub needle hay` : `needle` occurs somewhere in `hay`,
the model of `hay.find(needle) != string::npos`. -/
def containsSub (needle : List Char) : List Char → Bool
  | [] => needle.isEmpty
  | h :: hs => beginsWith needle (h :: hs) || containsSub needle hs

/-- Result record of the maps scanner, as `struct MapsAnalysis`. -/
structure MapsAnalysis where
  rwxSegments : Nat
  hasRwx : Bool
  fridaLibLoaded : Bool
  suspiciousModules : List (List Char)
deriving DecidableEq

/-- The all-default `MapsAnalysis` value (C++ member initializers). -/
def MapsAnalysis.init : MapsAnalysis :=
  { rwxSegments := 0, hasRwx := false, fridaLibLoaded := false,
    suspiciousModules := [] }

/-- The fixed keyword table of `analyzeProcMaps`. -/
def keywords : List (List Char) :=
  ["frida", "gum-js", "gum_js", "gadget",
   "substrate", "xposed", "lsposed", "edxposed"].map String.data

/-- A line flags an rwx segment: the two accepted textual forms. -/
def lineHasRwx (line : List Char) : Bool :=
  containsSub " rwxp".data line || containsSub " rwx".data line

/-- Lower-case a whole line. -/
def lowerLine (line : List Char) : List Char := line.map toLowerChar

/-- The first keyword (in table order) contained in the lower-cased line;
models the inner keyword loop with its `break`. -/
def findFirstKeyword (low : List Char) : Option (List Char) :=
  keywords.find? (fun k => containsSub k low)

/-- Whether a matched keyword sets the frida-loaded flag
(`keyword.find("frida") or keyword.find("gum")`). -/
def keywordSetsFrida (k : List Char) : Bool :=
  containsSub "frida".data k || containsSub "gum".data k

/-- The segment of `line` after its last path separator, or `none` when the
line holds no separator (`line.rfind while-slash == npos`). -/
def afterLastSlash : List Char → Option (List Char)
  | [] => none
  | c :: cs =>
    match afterLastSlash cs with
    | some r => some r
    | none => if c = '/' then some cs else none

/-- Truncate at the first space (`module.find` of a space, then `substr`). -/
def truncAtSpace (m : List Char) : List Char := m.takeWhile (fun c => c ≠ ' ')

/-- The module name a line would contribute: the basename after the last
slash, truncated at the first space; `none` when the line has no slash. -/
def extractModule (line : List Char) : Option (List Char) :=
  (afterLastSlash line).map truncAtSpace

/-- Insert a module, keeping uniqueness and dropping the empty name
(the `exists` scan and the `!exists and nonempty` push). -/
def addModule (mods : List (List Char)) (m : List Char) : List (List Char) :=
  if m ∈ mods ∨ m = [] then mods else mods ++ [m]

/-- Processing of one maps line: the body of the `while (getline ...)` loop. -/
def processLine (acc : MapsAnalysis) (line : List Char) : MapsAnalysis :=
  let acc1 :=
    if lineHasRwx line then
      { acc with rwxSegments := acc.rwxSegments + 1, hasRwx := true }
    else acc
  match findFirstKeyword (lowerLine line) with
  | none => acc1
  | some k =>
    let acc2 := if keywordSetsFrida k then { acc1 with fridaLibLoaded := true } else acc1
    match extractModule line with
    | none => acc2
    | some m => { acc2 with suspiciousModules := addModule acc2.suspiciousModules m }

/-- The line-count guardrail `MAX_LINES`. -/
def MAX_LINES : Nat := 10000

/-- Scan of an opened maps listing, capped at `MAX_LINES` lines. -/
def analyzeMapsLines (lines : List (List Char)) : MapsAnalysis :=
  (lines.take MAX_LINES).foldl processLine MapsAnalysis.init

/-- Model of `analyzeProcMaps`, with the maps listing as input; `none` models the
file failing to open. -/
def analyzeProcMaps (maps : Option (List (List Char))) : MapsAnalysis :=
  match maps with
  | none => MapsAnalysis.init
  | some lines => analyzeMapsLines lines

/-- One entry of the fd directory: its `d_name`, and the `readlink` result
for the corresponding symlink (`none` models a failed resolution). -/
structure FdEntry where
  name : List Char
  target : Option (List Char)
deriving DecidableEq

/-- Whether one directory entry triggers the frida hint: dotfile entries are
skipped, unresolved symlinks are skipped, otherwise the lower-cased target
is tested against the three keywords. -/
def entryMatches (e : FdEntry) : Bool :=
  if e.name.head? = some '.' then false
  else
    match e.target with
    | none => false
    | some t =>
      let low := t.map toLowerChar
      containsSub "frida".data low || containsSub "gadget".data low ||
        containsSub "gum-js".data low

/-- The fd-count guardrail `MAX_FD_CHECK`. -/
def MAX_FD_CHECK : Nat := 100

/-- Scan of the (capped) directory entries; `||` gives the loop's
break-on-first-match behaviour. -/
def scanFdEntries : List FdEntry → Bool
  | [] => false
  | e :: es => entryMatches e || scanFdEntries es

/-- Model of `checkFdForFrida`, with the fd directory listing as input; `none` models
`opendir` failing. -/
def checkFdForFrida (dir : Option (List FdEntry)) : Bool :=
  match dir with
  | none => false
  | some es => scanFdEntries (es.take MAX_FD_CHECK)

/-- Result record of the libc symbol check, as `struct LibcCheck`. -/
structure LibcCheck where
  soPath : List Char
  unexpected : Bool
deriving DecidableEq

/-- Model of `checkLibcSymbol`, with the `dladdr` outcome as input: `none` models
`dladdr` returning 0, `some none` a null `dli_fname`, `some (some p)` a
resolved module path `p`. -/
def checkLibcSymbol (dladdrInfo : Option (Option (List Char))) : LibcCheck :=
  match dladdrInfo with
  | none => { soPath := [], unexpected := false }
  | some none => { soPath := [], unexpected := false }
  | some (some fname) =>
    { soPath := fname,
      unexpected :=
        !(containsSub "/system/lib".data fname ||
          containsSub "/apex/".data fname ||
          containsSub "libc.so".data fname) }

/-- Model of `escapeJsonString`: a quote or backslash gets a backslash prefixed,
every other character is copied unchanged. -/
def escapeJsonString : List Char → List Char
  | [] => []
  | c :: cs =>
    (if c = '"' ∨ c = '\\' then ['\\', c] else [c]) ++ escapeJsonString cs

/-- The JSON elements of a non-empty vector: each element quoted and
escaped, comma-separated (the indexed loop of `vectorToJsonArray`). -/
def jsonArrayElems : List (List Char) → List Char
  | [] => []
  | [x] => '"' :: (escapeJsonString x ++ ['"'])
  | x :: y :: rest =>
    ('"' :: (escapeJsonString x ++ ['"', ','])) ++ jsonArrayElems (y :: rest)

/-- Model of `vectorToJsonArray`. -/
def vectorToJsonArray (vec : List (List Char)) : List Char :=
  if vec = [] then ['[', ']']
  else '[' :: (jsonArrayElems vec ++ [']'])

/-- Decimal rendering of the rwx counter (`ostream` int formatting). -/
def natToJson (n : Nat) : List Char := (toString n).data

/-- Boolean rendering used by the report builder. -/
def boolToJson (b : Bool) : List Char := if b then "true".data else "false".data

/-- The JNI entry point `collectNativeSignals`: runs the three detectors on
the modelled OS inputs and serializes the report, mirroring the exact
`ostringstream` output sequence. `elapsedMs` stands for the formatted
`chrono` duration in fractional milliseconds. -/
def collectNativeSignals (mapsInput : Option (List (List Char)))
    (fdInput : Option (List FdEntry))
    (dladdrInfo : Option (Option (List Char)))
    (elapsedMs : List Char) : List Char :=
  let mapsResult := analyzeProcMaps mapsInput
  let fdFrida := checkFdForFrida fdInput
  let libcResult := checkLibcSymbol dladdrInfo
  "\x7b".data ++
  "\"rwxSegments\":".data ++ natToJson mapsResult.rwxSegments ++ ",".data ++
  "\"hasRwx\":".data ++ boolToJson mapsResult.hasRwx ++ ",".data ++
  "\"fridaLibLoaded\":".data ++ boolToJson mapsResult.fridaLibLoaded ++ ",".data ++
  "\"fdFrida\":".data ++ boolToJson fdFrida ++ ",".data ++
  "\"libcGetpidSo\":\"".data ++ escapeJsonString libcResult.soPath ++ "\",".data ++
  "\"libcGetpidUnexpected\":".data ++ boolToJson libcResult.unexpected ++ ",".data ++
  "\"nativeTimeMs\":".data ++ elapsedMs ++ ",".data ++
  "\"suspiciousModules\":".data ++ vectorToJsonArray mapsResult.suspiciousModules ++
  "\x7d".data

/-! Spec-side definitions, used to state the claims against the code. -/

/-- A JSON object from a list of field name and rendered value pairs:
names quoted, `name:value` pairs comma-separated, wrapped in braces.
Used to state that the report is a single object with exactly the
listed fields. -/
def jsonFieldList : List (List Char × List Char) → List Char
  | [] => []
  | [(k, v)] => '"' :: (k ++ '"' :: ':' :: v)
  | (k, v) :: p :: rest =>
    ('"' :: (k ++ '"' :: ':' :: v)) ++ ',' :: jsonFieldList (p :: rest)

/-- Wrap a rendered field list in braces. -/
def jsonObject (fields : List (List Char × List Char)) : List Char :=
  '\x7b' :: (jsonFieldList fields ++ ['\x7d'])

/-- The eight field names of the report contract. -/
def reportFieldNames : List (List Char) :=
  ["rwxSegments", "hasRwx", "fridaLibLoaded", "fdFrida",
   "libcGetpidSo", "libcGetpidUnexpected", "nativeTimeMs",
   "suspiciousModules"].map String.data

/-- Inverse of the escaping: a backslash takes the next character
literally, everything else is copied. -/
def unescapeJsonString : List Char → List Char
  | [] => []
  | c :: cs =>
    if c = '\\' then
      match cs with
      | [] => []
      | d :: cs2 => d :: unescapeJsonString cs2
    else c :: unescapeJsonString cs

/-- Parse a JSON string body up to its closing unescaped quote, undoing the
escaping; returns the decoded content and the remainder after the quote. -/
def parseStringBody : List Char → Option (List Char × List Char)
  | [] => none
  | c :: cs =>
    if c = '\\' then
      match cs with
      | [] => none
      | d :: cs2 => (parseStringBody cs2).map (fun p => (d :: p.1, p.2))
    else if c = '"' then some ([], cs)
    else (parseStringBody cs).map (fun p => (c :: p.1, p.2))

/-- Parse the comma-separated quoted elements of a JSON array, expecting a
final closing bracket; fuelled by an upper bound on the element count. -/
def parseArrayElems (fuel : Nat) (cs : List Char) : Option (List (List Char)) :=
  match fuel with
  | 0 => none
  | fuel + 1 =>
    match cs with
    | '"' :: cs1 =>
      match parseStringBody cs1 with
      | none => none
      | some (s, rest) =>
        match rest with
        | ',' :: cs2 => (parseArrayElems fuel cs2).map (fun v => s :: v)
        | [']'] => some [s]
        | _ => none
    | _ => none

/-- Parse a JSON array of strings, the inverse direction of
`vectorToJsonArray`. -/
def parseJsonArray (cs : List Char) : Option (List (List Char)) :=
  match cs with
  | ['[', ']'] => some []
  | '[' :: rest => parseArrayElems rest.length rest
  | _ => none

/-- The module one line offers for insertion: present exactly when a
keyword matches and the line has a path separator. -/
def lineModule (line : List Char) : Option (List Char) :=
  match findFirstKeyword (lowerLine line) with
  | none => none
  | some _ => extractModule line

/-- Modules extracted, in line order, from the keyword-matching lines of
the capped maps listing: the raw stream whose first-seen deduplication the
scanner's suspicious-module list must equal. -/
def rawModules (lines : List (List Char)) : List (List Char) :=
  (lines.take MAX_LINES).filterMap lineModule

/-- First-seen deduplication dropping empties, with the already-emitted
names as accumulator; the spec's description of the suspicious-module set. -/
def dedupFirstAux (seen : List (List Char)) : List (List Char) → List (List Char)
  | [] => []
  | m :: ms =>
    if m ∈ seen ∨ m = [] then dedupFirstAux seen ms
    else m :: dedupFirstAux (m :: seen) ms

/-- First-seen deduplication dropping empties. -/
def dedupFirst (ms : List (List Char)) : List (List Char) := dedupFirstAux [] ms

/-! Theorems. -/

/-- C2: on the single mapping line `/data/local/tmp/frida-agent.so rwxp ...`,
`analyzeProcMaps` reports an rwx segment, the frida library loaded, and the
one suspicious module `frida-agent.so` (basename after the last slash,
truncated at the first space). -/
theorem c2_frida_agent_line :
    (analyzeProcMaps (some ["/data/local/tmp/frida-agent.so rwxp ...".data])).hasRwx
        = true ∧
    (analyzeProcMaps
        (some ["/data/local/tmp/frida-agent.so rwxp ...".data])).fridaLibLoaded
        = true ∧
    (analyzeProcMaps
        (some ["/data/local/tmp/frida-agent.so rwxp ...".data])).suspiciousModules
        = ["frida-agent.so".data] := by
  decide

/-- C5: an unopenable maps listing yields the all-default analysis and an
unopenable fd directory yields `false`; both are plain return values, not
errors. -/
theorem c5_unavailable_resources :
    analyzeProcMaps none =
      { rwxSegments := 0, hasRwx := false, fridaLibLoaded := false,
        suspiciousModules := [] } ∧
    checkFdForFrida none = false :=
  ⟨rfl, rfl⟩

/-- C4: `unexpected` is `true` exactly when resolution succeeded with a
non-null path containing none of the three accepted fragments; a resolved
path is recorded as given; failed resolution (and a null path) yield the
empty path with `unexpected = false`. -/
theorem c4_libc_symbol_classification :
    (∀ info, (checkLibcSymbol info).unexpected = true ↔
        ∃ p, info = some (some p) ∧
          containsSub "/system/lib".data p = false ∧
          containsSub "/apex/".data p = false ∧
          containsSub "libc.so".data p = false) ∧
    (∀ p, (checkLibcSymbol (some (some p))).soPath = p) ∧
    checkLibcSymbol none = { soPath := [], unexpected := false } ∧
    checkLibcSymbol (some none) = { soPath := [], unexpected := false } := by
  refine ⟨?_, fun p => rfl, rfl, rfl⟩
  intro info
  match info with
  | none => simp [checkLibcSymbol]
  | some none => simp [checkLibcSymbol]
  | some (some p) => simp [checkLibcSymbol, and_assoc]

/-- C8: both scanners depend only on the capped prefix of their input —
10,000 lines for the maps scanner, 100 entries for the fd scanner — so any
input beyond the caps is silently ignored and the (total) functions return
an ordinary result. -/
theorem c8_guardrail_caps :
    (∀ l₁ l₂ : List (List Char), l₁.take MAX_LINES = l₂.take MAX_LINES →
        analyzeProcMaps (some l₁) = analyzeProcMaps (some l₂)) ∧
    (∀ d₁ d₂ : List FdEntry, d₁.take MAX_FD_CHECK = d₂.take MAX_FD_CHECK →
        checkFdForFrida (some d₁) = checkFdForFrida (some d₂)) := by
  constructor
  · intro l₁ l₂ h
    simp only [analyzeProcMaps, analyzeMapsLines, h]
  · intro d₁ d₂ h
    simp only [checkFdForFrida, h]

/-- Witness for C8: an 10,001-line listing gives the same analysis as its
first 10,000 lines, and a 101-entry fd directory the same verdict as its
first 100 entries. -/
theorem c8_guardrail_caps_witness :
    analyzeProcMaps (some (List.replicate 10001 "frida".data)) =
      analyzeProcMaps (some (List.replicate 10000 "frida".data)) ∧
    checkFdForFrida (some (List.replicate 101 (FdEntry.mk "9".data none))) =
      checkFdForFrida (some (List.replicate 100 (FdEntry.mk "9".data none))) :=
  ⟨c8_guardrail_caps.1 _ _ (by
      rw [List.take_replicate, List.take_replicate]
      norm_num [MAX_LINES]),
   c8_guardrail_caps.2 _ _ (by
      rw [List.take_replicate, List.take_replicate]
      norm_num [MAX_FD_CHECK])⟩

/-- C1: every report is one JSON object whose fields are exactly the eight
contract fields, in order: the integer `rwxSegments`, the booleans
`hasRwx`, `fridaLibLoaded`, `fdFrida`, the (escaped) string
`libcGetpidSo`, the boolean `libcGetpidUnexpected`, the numeric
`nativeTimeMs`, and the string array `suspiciousModules` — and no others. -/
theorem c1_report_shape :
    ∀ (mapsInput : Option (List (List Char))) (fdInput : Option (List FdEntry))
      (dladdrInfo : Option (Option (List Char))) (elapsedMs : List Char),
      collectNativeSignals mapsInput fdInput dladdrInfo elapsedMs =
        jsonObject
          [("rwxSegments".data,
              natToJson (analyzeProcMaps mapsInput).rwxSegments),
           ("hasRwx".data, boolToJson (analyzeProcMaps mapsInput).hasRwx),
           ("fridaLibLoaded".data,
              boolToJson (analyzeProcMaps mapsInput).fridaLibLoaded),
           ("fdFrida".data, boolToJson (checkFdForFrida fdInput)),
           ("libcGetpidSo".data,
              '"' :: (escapeJsonString (checkLibcSymbol dladdrInfo).soPath ++ ['"'])),
           ("libcGetpidUnexpected".data,
              boolToJson (checkLibcSymbol dladdrInfo).unexpected),
           ("nativeTimeMs".data, elapsedMs),
           ("suspiciousModules".data,
              vectorToJsonArray (analyzeProcMaps mapsInput).suspiciousModules)] ∧
      List.map Prod.fst
          [("rwxSegments".data,
              natToJson (analyzeProcMaps mapsInput).rwxSegments),
           ("hasRwx".data, boolToJson (analyzeProcMaps mapsInput).hasRwx),
           ("fridaLibLoaded".data,
              boolToJson (analyzeProcMaps mapsInput).fridaLibLoaded),
           ("fdFrida".data, boolToJson (checkFdForFrida fdInput)),
           ("libcGetpidSo".data,
              '"' :: (escapeJsonString (checkLibcSymbol dladdrInfo).soPath ++ ['"'])),
           ("libcGetpidUnexpected".data,
              boolToJson (checkLibcSymbol dladdrInfo).unexpected),
           ("nativeTimeMs".data, elapsedMs),
           ("suspiciousModules".data,
              vectorToJsonArray (analyzeProcMaps mapsInput).suspiciousModules)]
        = reportFieldNames := by
  intro mapsInput fdInput dladdrInfo elapsedMs
  constructor
  · simp only [collectNativeSignals, jsonObject, jsonFieldList,
      List.append_assoc, List.cons_append, List.nil_append]
  · rfl

/-- The fd scan is the standard any-predicate over the entries. -/
theorem scanFdEntries_eq_any (es : List FdEntry) :
    scanFdEntries es = es.any entryMatches := by
  induction es with
  | nil => rfl
  | cons e es ih => simp [scanFdEntries, ih]

/-- C6: the fd check is true exactly when some entry within the 100-entry
cap matches (non-dotfile, resolvable, keyworded target), and a match makes
the result true regardless of every entry after it (short-circuit). -/
theorem c6_fd_scan :
    (∀ es : List FdEntry,
        checkFdForFrida (some es) = true ↔
          ∃ e ∈ es.take MAX_FD_CHECK, entryMatches e = true) ∧
    (∀ (pre : List FdEntry) (e : FdEntry) (rest : List FdEntry),
        pre.length < MAX_FD_CHECK → entryMatches e = true →
        checkFdForFrida (some (pre ++ e :: rest)) = true) := by
  have hmem : ∀ es : List FdEntry,
      checkFdForFrida (some es) = true ↔
        ∃ e ∈ es.take MAX_FD_CHECK, entryMatches e = true := by
    intro es
    simp [checkFdForFrida, scanFdEntries_eq_any, List.any_eq_true]
  refine ⟨hmem, ?_⟩
  intro pre e rest hlen hmatch
  rw [hmem]
  refine ⟨e, ?_, hmatch⟩
  rw [List.take_append_eq_append_take,
      List.take_of_length_le (Nat.le_of_lt hlen)]
  have hpos : 0 < MAX_FD_CHECK - pre.length := Nat.sub_pos_of_lt hlen
  obtain ⟨k, hk⟩ := Nat.exists_eq_succ_of_ne_zero (Nat.pos_iff_ne_zero.mp hpos)
  rw [hk, List.take_succ_cons]
  simp

/-- Witness for C6: one entry whose symlink resolves to
`/data/local/tmp/re.frida.server` makes the check true. -/
theorem c6_fd_scan_witness :
    checkFdForFrida
      (some [FdEntry.mk "3".data (some "/data/local/tmp/re.frida.server".data)])
      = true :=
  c6_fd_scan.2 [] (FdEntry.mk "3".data (some "/data/local/tmp/re.frida.server".data))
    [] (by decide) (by decide)

/-- A line without a path separator has no basename segment. -/
theorem afterLastSlash_eq_none (line : List Char) (h : '/' ∉ line) :
    afterLastSlash line = none := by
  induction line with
  | nil => rfl
  | cons c cs ih =>
    simp only [List.mem_cons, not_or] at h
    simp [afterLastSlash, ih h.2, if_neg (Ne.symm h.1)]

/-- C10: a line without a path separator contributes nothing to
`suspiciousModules` even when a keyword matches, while a frida/gum keyword
match still sets `fridaLibLoaded`; hence a result with
`fridaLibLoaded = true` and no suspicious modules is reachable. -/
theorem c10_keyword_without_slash :
    (∀ (acc : MapsAnalysis) (line : List Char), '/' ∉ line →
        (processLine acc line).suspiciousModules = acc.suspiciousModules) ∧
    (∀ (acc : MapsAnalysis) (line : List Char) (k : List Char),
        findFirstKeyword (lowerLine line) = some k →
        keywordSetsFrida k = true →
        (processLine acc line).fridaLibLoaded = true) ∧
    (analyzeProcMaps (some ["frida".data])).fridaLibLoaded = true ∧
    (analyzeProcMaps (some ["frida".data])).suspiciousModules = [] := by
  refine ⟨?_, ?_, by decide, by decide⟩
  · intro acc line h
    have hnone : extractModule line = none := by
      simp [extractModule, afterLastSlash_eq_none line h]
    cases hk : findFirstKeyword (lowerLine line) with
    | none => simp only [processLine, hk]; split <;> rfl
    | some k => simp only [processLine, hk, hnone]; split <;> split <;> rfl
  · intro acc line k hk hf
    cases hm : extractModule line with
    | none => simp only [processLine, hk, hm, hf, if_true]
    | some m => simp only [processLine, hk, hm, hf, if_true]

/-- Witness for C10: processing the slashless line `frida` leaves the
module list unchanged yet sets the frida flag. -/
theorem c10_keyword_without_slash_witness :
    (processLine MapsAnalysis.init "frida".data).suspiciousModules =
      MapsAnalysis.init.suspiciousModules ∧
    (processLine MapsAnalysis.init "frida".data).fridaLibLoaded = true :=
  ⟨c10_keyword_without_slash.1 MapsAnalysis.init "frida".data (by decide),
   c10_keyword_without_slash.2.1 MapsAnalysis.init "frida".data "frida".data
     (by decide) (by decide)⟩

/-- C7: when no line of the listing contains any keyword (lower-cased),
the analysis reports no suspicious modules and no frida library. -/
theorem c7_no_keyword_no_signal :
    ∀ lines : List (List Char),
      (∀ line ∈ lines, ∀ k ∈ keywords, containsSub k (lowerLine line) = false) →
      (analyzeProcMaps (some lines)).suspiciousModules = [] ∧
      (analyzeProcMaps (some lines)).fridaLibLoaded = false := by
  have step : ∀ (acc : MapsAnalysis) (line : List Char),
      findFirstKeyword (lowerLine line) = none →
      (processLine acc line).suspiciousModules = acc.suspiciousModules ∧
      (processLine acc line).fridaLibLoaded = acc.fridaLibLoaded := by
    intro acc line hk
    simp only [processLine, hk]
    split <;> exact ⟨rfl, rfl⟩
  have fold : ∀ (lines : List (List Char)) (acc : MapsAnalysis),
      (∀ line ∈ lines, findFirstKeyword (lowerLine line) = none) →
      (lines.foldl processLine acc).suspiciousModules = acc.suspiciousModules ∧
      (lines.foldl processLine acc).fridaLibLoaded = acc.fridaLibLoaded := by
    intro lines
    induction lines with
    | nil => intro acc _; exact ⟨rfl, rfl⟩
    | cons line rest ih =>
      intro acc h
      have h1 := step acc line (h line (List.mem_cons_self line rest))
      have h2 := ih (processLine acc line) (fun l hl => h l (List.mem_cons_of_mem line hl))
      exact ⟨h2.1.trans h1.1, h2.2.trans h1.2⟩
  intro lines h
  have hnone : ∀ line ∈ lines.take MAX_LINES, findFirstKeyword (lowerLine line) = none := by
    intro line hl
    have hl' : line ∈ lines := List.take_subset MAX_LINES lines hl
    rw [findFirstKeyword, List.find?_eq_none]
    intro k hk
    simp [h line hl' k hk]
  exact fold (lines.take MAX_LINES) MapsAnalysis.init hnone

/-- Witness for C7: a benign libc mapping line yields no modules and no
frida flag. -/
theorem c7_no_keyword_no_signal_witness :
    (analyzeProcMaps
        (some ["7f0000-7f1000 r-xp 00000000 fd:00 123 /system/lib64/libc.so".data])).suspiciousModules
      = [] ∧
    (analyzeProcMaps
        (some ["7f0000-7f1000 r-xp 00000000 fd:00 123 /system/lib64/libc.so".data])).fridaLibLoaded
      = false :=
  c7_no_keyword_no_signal
    ["7f0000-7f1000 r-xp 00000000 fd:00 123 /system/lib64/libc.so".data]
    (by decide)

/-- Effect of one line on the suspicious-module list: insertion of the
line's module, when it offers one. -/
theorem processLine_modules (acc : MapsAnalysis) (line : List Char) :
    (processLine acc line).suspiciousModules =
      match lineModule line with
      | none => acc.suspiciousModules
      | some m => addModule acc.suspiciousModules m := by
  cases hk : findFirstKeyword (lowerLine line) with
  | none => simp only [processLine, lineModule, hk]; split <;> rfl
  | some k =>
    cases hm : extractModule line with
    | none => simp only [processLine, lineModule, hk, hm]; split <;> split <;> rfl
    | some m => simp only [processLine, lineModule, hk, hm]; split <;> split <;> rfl

/-- The fold of line processing inserts exactly the raw module stream. -/
theorem foldl_modules (lines : List (List Char)) :
    ∀ acc : MapsAnalysis,
      (lines.foldl processLine acc).suspiciousModules =
        (lines.filterMap lineModule).foldl addModule acc.suspiciousModules := by
  induction lines with
  | nil => intro acc; rfl
  | cons line rest ih =>
    intro acc
    rw [List.foldl_cons, ih (processLine acc line), List.filterMap_cons]
    cases hm : lineModule line with
    | none => rw [processLine_modules]; simp [hm]
    | some m => rw [processLine_modules]; simp [hm]

/-- First-seen deduplication only looks at the seen set through
membership. -/
theorem dedupFirstAux_congr (ms : List (List Char)) :
    ∀ s₁ s₂, (∀ x, x ∈ s₁ ↔ x ∈ s₂) →
      dedupFirstAux s₁ ms = dedupFirstAux s₂ ms := by
  induction ms with
  | nil => intro s₁ s₂ _; rfl
  | cons m ms ih =>
    intro s₁ s₂ h
    by_cases hm : m ∈ s₁ ∨ m = []
    · have hm₂ : m ∈ s₂ ∨ m = [] := by
        rcases hm with h1 | h1
        · exact Or.inl ((h m).mp h1)
        · exact Or.inr h1
      simp only [dedupFirstAux, if_pos hm, if_pos hm₂]
      exact ih s₁ s₂ h
    · have hm₂ : ¬(m ∈ s₂ ∨ m = []) := by
        intro hc
        rcases hc with h1 | h1
        · exact hm (Or.inl ((h m).mpr h1))
        · exact hm (Or.inr h1)
      simp only [dedupFirstAux, if_neg hm, if_neg hm₂]
      rw [ih (m :: s₁) (m :: s₂) (by intro x; simp [h x])]

/-- Folding insertions from a seen prefix appends the first-seen
deduplication of the remaining stream. -/
theorem foldl_addModule (ms : List (List Char)) :
    ∀ s, ms.foldl addModule s = s ++ dedupFirstAux s ms := by
  induction ms with
  | nil => intro s; simp [dedupFirstAux]
  | cons m ms ih =>
    intro s
    rw [List.foldl_cons]
    by_cases hm : m ∈ s ∨ m = []
    · simp only [addModule, if_pos hm]
      rw [ih s]
      simp only [dedupFirstAux, if_pos hm]
    · simp only [addModule, if_neg hm]
      rw [ih (s ++ [m]),
          dedupFirstAux_congr ms (s ++ [m]) (m :: s) (by intro x; simp [or_comm])]
      simp only [dedupFirstAux, if_neg hm]
      simp

/-- Elements emitted by first-seen deduplication avoid the seen set and are
non-empty. -/
theorem dedupFirstAux_mem (ms : List (List Char)) :
    ∀ s, ∀ x ∈ dedupFirstAux s ms, x ∉ s ∧ x ≠ [] := by
  induction ms with
  | nil => intro s x hx; simp [dedupFirstAux] at hx
  | cons m ms ih =>
    intro s x hx
    by_cases hm : m ∈ s ∨ m = []
    · rw [dedupFirstAux, if_pos hm] at hx
      exact ih s x hx
    · rw [dedupFirstAux, if_neg hm] at hx
      rcases List.mem_cons.mp hx with rfl | hx'
      · push_neg at hm
        exact ⟨hm.1, hm.2⟩
      · have hrec := ih (m :: s) x hx'
        exact ⟨fun hxs => hrec.1 (List.mem_cons_of_mem m hxs), hrec.2⟩

/-- First-seen deduplication emits no duplicates. -/
theorem dedupFirstAux_nodup (ms : List (List Char)) :
    ∀ s, (dedupFirstAux s ms).Nodup := by
  induction ms with
  | nil => intro s; simp [dedupFirstAux]
  | cons m ms ih =>
    intro s
    by_cases hm : m ∈ s ∨ m = []
    · rw [dedupFirstAux, if_pos hm]
      exact ih s
    · rw [dedupFirstAux, if_neg hm]
      refine List.nodup_cons.mpr ⟨?_, ih (m :: s)⟩
      intro hmem
      exact (dedupFirstAux_mem ms (m :: s) m hmem).1 (List.mem_cons_self m s)

/-- C3: the suspicious-module list is the first-seen deduplication of the
raw module stream — unique, non-empty entries in order of first
occurrence. -/
theorem c3_suspicious_modules_invariant (lines : List (List Char)) :
    (analyzeProcMaps (some lines)).suspiciousModules =
      dedupFirst (rawModules lines) ∧
    (analyzeProcMaps (some lines)).suspiciousModules.Nodup ∧
    ∀ m ∈ (analyzeProcMaps (some lines)).suspiciousModules, m ≠ [] := by
  have key : (analyzeProcMaps (some lines)).suspiciousModules =
      dedupFirst (rawModules lines) := by
    show (analyzeMapsLines lines).suspiciousModules = _
    rw [analyzeMapsLines, foldl_modules, rawModules, foldl_addModule]
    rfl
  refine ⟨key, ?_, ?_⟩
  · rw [key]
    exact dedupFirstAux_nodup _ []
  · rw [key]
    intro m hm
    exact (dedupFirstAux_mem _ [] m hm).2

/-- Un-escaping inverts the escaping on every string. -/
theorem unescape_escape (s : List Char) :
    unescapeJsonString (escapeJsonString s) = s := by
  induction s with
  | nil => rfl
  | cons c cs ih =>
    by_cases h : c = '"' ∨ c = '\\'
    · simp only [escapeJsonString, if_pos h, List.cons_append, List.nil_append]
      simp [unescapeJsonString, ih]
    · have hc : c ≠ '\\' := fun hh => h (Or.inr hh)
      simp only [escapeJsonString, if_neg h, List.cons_append, List.nil_append]
      rw [unescapeJsonString.eq_def]
      simp [hc, ih]

/-- The string-body parser consumes an escaped string up to its closing
quote and returns the original content with the remainder. -/
theorem parseStringBody_escape (x : List Char) :
    ∀ r, parseStringBody (escapeJsonString x ++ '"' :: r) = some (x, r) := by
  induction x with
  | nil =>
    intro r
    show parseStringBody ('"' :: r) = some ([], r)
    rw [parseStringBody.eq_def]
    simp
  | cons c cs ih =>
    intro r
    by_cases h : c = '"' ∨ c = '\\'
    · simp only [escapeJsonString, if_pos h, List.cons_append, List.nil_append,
        List.append_assoc]
      rw [parseStringBody.eq_def]
      simp [ih r]
    · have hc : c ≠ '\\' := fun hh => h (Or.inr hh)
      have hq : c ≠ '"' := fun hh => h (Or.inl hh)
      simp only [escapeJsonString, if_neg h, List.cons_append, List.nil_append]
      rw [parseStringBody.eq_def]
      simp [hc, hq, ih r]

/-- The element parser recovers any non-empty vector from its rendered
elements followed by the closing bracket, given enough fuel. -/
theorem parseArrayElems_json (v : List (List Char)) :
    ∀ fuel, v ≠ [] → v.length ≤ fuel →
      parseArrayElems fuel (jsonArrayElems v ++ [']']) = some v := by
  induction v with
  | nil => intro fuel h _; exact absurd rfl h
  | cons x xs ih =>
    intro fuel _ hlen
    cases fuel with
    | zero => simp at hlen
    | succ f =>
      cases xs with
      | nil =>
        have hshape : jsonArrayElems [x] ++ [']'] =
            '"' :: (escapeJsonString x ++ '"' :: [']']) := by
          simp [jsonArrayElems]
        rw [hshape]
        simp only [parseArrayElems]
        rw [parseStringBody_escape]
        rfl
      | cons y ys =>
        have hshape : jsonArrayElems (x :: y :: ys) ++ [']'] =
            '"' :: (escapeJsonString x ++
              '"' :: ',' :: (jsonArrayElems (y :: ys) ++ [']'])) := by
          simp only [jsonArrayElems, List.cons_append, List.nil_append,
            List.append_assoc]
        rw [hshape]
        simp only [parseArrayElems]
        rw [parseStringBody_escape]
        have hfuel : (y :: ys).length ≤ f := by
          simpa [Nat.succ_le_succ_iff] using hlen
        show Option.map (fun v => x :: v)
            (parseArrayElems f (jsonArrayElems (y :: ys) ++ [']'])) =
          some (x :: y :: ys)
        rw [ih f (by simp) hfuel]
        rfl

/-- The rendered elements of a non-empty vector start with a quote. -/
theorem jsonArrayElems_head (x : List Char) (xs : List (List Char)) :
    ∃ t, jsonArrayElems (x :: xs) = '"' :: t := by
  cases xs with
  | nil => exact ⟨_, rfl⟩
  | cons y ys => exact ⟨_, rfl⟩

/-- A vector never outgrows its rendering. -/
theorem length_le_jsonArrayElems (v : List (List Char)) :
    v.length ≤ (jsonArrayElems v).length := by
  induction v with
  | nil => simp [jsonArrayElems]
  | cons x xs ih =>
    cases xs with
    | nil => simp [jsonArrayElems]
    | cons y ys =>
      simp only [jsonArrayElems, List.length_cons, List.length_append]
      simp only [jsonArrayElems, List.length_cons] at ih
      omega

/-- C9: escaping prefixes each quote and backslash with a backslash and
leaves every other character unchanged, is compositional, and is undone by
un-escaping; consequently the serialized module array parses back to the
original vector, so the report's string content survives serialization. -/
theorem c9_escape_roundtrip :
    (∀ c : Char, escapeJsonString [c] =
        if c = '"' ∨ c = '\\' then ['\\', c] else [c]) ∧
    (∀ s t : List Char,
        escapeJsonString (s ++ t) = escapeJsonString s ++ escapeJsonString t) ∧
    (∀ s : List Char, unescapeJsonString (escapeJsonString s) = s) ∧
    (∀ v : List (List Char), parseJsonArray (vectorToJsonArray v) = some v) := by
  refine ⟨?_, ?_, unescape_escape, ?_⟩
  · intro c
    simp [escapeJsonString]
  · intro s t
    induction s with
    | nil => simp [escapeJsonString]
    | cons c cs ih => simp [escapeJsonString, ih, List.append_assoc]
  · intro v
    cases v with
    | nil => rfl
    | cons x xs =>
      obtain ⟨t, ht⟩ := jsonArrayElems_head x xs
      have hlen : (x :: xs).length ≤ (jsonArrayElems (x :: xs) ++ [']']).length := by
        have h1 := length_le_jsonArrayElems (x :: xs)
        rw [List.length_append]
        omega
      have hv : vectorToJsonArray (x :: xs) =
          '[' :: (jsonArrayElems (x :: xs) ++ [']']) := by
        simp [vectorToJsonArray]
      rw [hv, ht]
      show parseArrayElems ((('"' :: t) ++ [']']).length) (('"' :: t) ++ [']']) =
        some (x :: xs)
      rw [← ht]
      exact parseArrayElems_json (x :: xs) _ (by simp) hlen

/-- Witness for C3: the invariant instantiated on a listing that repeats a
frida module line. -/
theorem c3_suspicious_modules_invariant_witness :
    ((analyzeProcMaps (some ["/data/frida.so rwxp".data,
        "/data/frida.so r-xp".data])).suspiciousModules =
      dedupFirst (rawModules ["/data/frida.so rwxp".data,
        "/data/frida.so r-xp".data])) ∧
    (analyzeProcMaps (some ["/data/frida.so rwxp".data,
        "/data/frida.so r-xp".data])).suspiciousModules.Nodup ∧
    ∀ m ∈ (analyzeProcMaps (some ["/data/frida.so rwxp".data,
        "/data/frida.so r-xp".data])).suspiciousModules, m ≠ [] :=
  c3_suspicious_modules_invariant
    ["/data/frida.so rwxp".data, "/data/frida.so r-xp".data]

/-- Witness for C4: an injected library path outside the accepted system
locations is classified unexpected. -/
theorem c4_libc_symbol_classification_witness :
    (checkLibcSymbol (some (some "/data/app/evil.so".data))).unexpected = true :=
  (c4_libc_symbol_classification.1 (some (some "/data/app/evil.so".data))).mpr
    ⟨"/data/app/evil.so".data, rfl, by decide, by decide, by decide⟩

end DeviceTrust
